import Mathlib

/-!
# Verification of the `valdn` validation engine (`valdn.go`)

A shallow embedding of the core of the `valdn` Go package: the recursive
traversal/dispatch algorithm, the path-resolution rule lookup, the tag
(annotation) merger, the rule-expression evaluator and the post-traversal
completeness pass, together with theorems settling the specification claims.

Go values that the engine inspects by reflection are modelled by the mutual
inductive `Value`; Go `panic` is modelled by the `Except CErr` monad; Go maps
(`Rules`, `Errors`, `fieldsExist`) are modelled by association lists with
Go-map update semantics (at most one binding per key; lookup of a missing key
yields the zero value).

Helper functions of the repository that live outside `valdn.go` (in files not
available here) are modelled from the specification and are marked as such in
their doc comments.
-/

set_option linter.unusedVariables false

namespace Valdn

mutual
/-- Go values as seen by the traversal engine.  `scalar` covers every
non-composite value (its payload is the string the rule functions may look
at).  `structV` is a Go struct: a spine of fields, each carrying the field
name, its `valdn` tag string, whether it is exported, and its value (the
static field type is identified with the shape of the value).  `mapV` is a
canonical `map[string]interface\x7b\x7d`, `sliceV` a canonical
`[]interface\x7b\x7d`.  `badMap`/`badSlice` are values whose reflection Kind
is Map/Slice but whose runtime type is NOT the canonical one (the carried
string is the Go type name, as printed by `%T`). -/
inductive Value where
  | scalar : String → Value
  | structV : SFields → Value
  | mapV : MEntries → Value
  | badMap : String → Value
  | sliceV : SEntries → Value
  | badSlice : String → Value

/-- Spine of struct fields: `cons name tag exported value rest`. -/
inductive SFields where
  | nil : SFields
  | cons : String → String → Bool → Value → SFields → SFields

/-- Spine of map entries: `cons key value rest`. -/
inductive MEntries where
  | nil : MEntries
  | cons : String → Value → MEntries → MEntries

/-- Spine of slice elements. -/
inductive SEntries where
  | nil : SEntries
  | cons : Value → SEntries → SEntries
end

/-- `type Rules map[string][]string` — modelled as an association list with
unique keys (Go map semantics). -/
abbrev Rules := List (String × List String)

/-- `type Errors map[string]string` — modelled as an association list with
unique keys. -/
abbrev Errors := List (String × String)

/-- First-match association-list lookup; with unique keys this is exactly a Go
map read (`none` = zero value). -/
def lookupKV {α : Type} : List (String × α) → String → Option α
  | [], _ => none
  | (k, v) :: rest, k' => if k = k' then some v else lookupKV rest k'

/-- Go map write `m[k] = v`: replace the binding of `k` if present, otherwise
append a new one. -/
def setKV {α : Type} : List (String × α) → String → α → List (String × α)
  | [], k, v => [(k, v)]
  | (k', v') :: rest, k, v =>
      if k' = k then (k, v) :: rest else (k', v') :: setKV rest k v

/-- A rule function from the registry:
`(fieldPath, value, parameter) → failure-or-none`. -/
abbrev RuleFunc := String → Value → String → Option String

/-- The external Rule Registry: name → validating function or not-found. -/
abbrev Registry := String → Option RuleFunc

/-- Modelled from the spec: `splitRuleNameAndRuleValue` is not under `src/`.
"Rule Expression: `name` or `name:parameter`" — split a rule expression at the
first `:` into the rule name and the (possibly empty) parameter. -/
def splitAtColon : List Char → Option (List Char × List Char)
  | [] => none
  | c :: cs =>
      if c = ':' then some ([], cs)
      else
        match splitAtColon cs with
        | some (pre, post) => some (c :: pre, post)
        | none => none

/-- Modelled from the spec: "split into name and optional parameter using a
single fixed separator" (the separator is `:`). -/
def splitRuleNameAndRuleValue (r : String) : String × String :=
  match splitAtColon r.toList with
  | some (pre, post) => (String.mk pre, String.mk post)
  | none => (r, "")

/-- Modelled from the spec: `getParentName` is not under `src/`.
"`parent(path)` strips the final path segment": drop the last `.`-separated
segment (and the separator); a path without a separator has parent `""`. -/
def getParentName (name : String) : String :=
  match (name.toList.reverse).dropWhile (fun c => ¬ c = '.') with
  | [] => ""
  | _ :: rest => String.mk rest.reverse

/-- Modelled from the spec: `makeParentNameJoinable` is not under `src/`.
Child paths are "parent path, a separator, and a field name"; the root path is
empty and contributes no separator. -/
def makeParentNameJoinable (parName : String) : String :=
  if parName = "" then "" else parName ++ "."

/-- Modelled from the spec: `toString` (stringification of a slice index) is
not under `src/`; indices appear in paths in decimal. -/
def toStringIdx (n : Nat) : String := Nat.repr n

/-- Modelled from the spec: `GetErrMsg` is not under `src/`.  It renders the
registered message for a rule at a path ("\x3crequired message\x3e" etc.). -/
def GetErrMsg (ruleName : String) (ruleVal : String) (name : String)
    (val : String) : String :=
  name ++ " is " ++ ruleName

/-- Modelled from the spec: `copyRules` is not under `src/`.  "session copies
the rule table" — a fresh deep copy of the caller's table. -/
def copyRules (r : Rules) : Rules :=
  match r with
  | [] => []
  | (k, v) :: rest => (k, v) :: copyRules rest

/-- Modelled from the spec: `IsStruct` (reflection Kind check) — true exactly
for Record values. -/
def IsStruct : Value → Bool
  | .structV _ => true
  | _ => false

/-- Modelled from the spec: `IsMap` (reflection Kind check) — true for any
value whose Kind is Map, canonical or not. -/
def IsMap : Value → Bool
  | .mapV _ => true
  | .badMap _ => true
  | _ => false

/-- Modelled from the spec: `IsSlice` (reflection Kind check) — true for any
value whose Kind is Slice, canonical or not. -/
def IsSlice : Value → Bool
  | .sliceV _ => true
  | .badSlice _ => true
  | _ => false

/-- The Go type name of a value as printed by `%T` in the panic message of
`validateMap`/`validateSlice` (only the non-canonical cases matter there). -/
def typeName : Value → String
  | .scalar _ => "scalar"
  | .structV _ => "struct"
  | .mapV _ => "map[string]interface \x7b\x7d"
  | .badMap t => t
  | .sliceV _ => "[]interface \x7b\x7d"
  | .badSlice t => t

/-- Fatal configuration errors (Go `panic`). -/
inductive CErr where
  /-- `panic("unknown rule: " + rName)` in `Validate`. -/
  | unknownRule : String → CErr
  /-- `panic(fmt.Errorf("error validating %v: type %T is not supported", name, val))`
  in `validateMap`/`validateSlice`; carries the path and the type name. -/
  | unsupportedType : String → String → CErr
  /-- `panic("val is not a struct")` in `ValidateStruct`, and the reflection
  panic that walking the fields of a non-struct would raise. -/
  | notStruct : CErr
deriving DecidableEq

/-- The `validation` struct: the session's private rule table, error map and
visited set (`fieldsExist`). -/
structure validation where
  rules : Rules
  errors : Errors
  fieldsExist : List String

/-- `createNewValidation` copies rules and initialises a new validation with
it (`valdn.go:31`). -/
def createNewValidation (rules : Rules) : validation :=
  { rules := copyRules rules, errors := [], fieldsExist := [] }

/-- `registerField` (`valdn.go:144`): mark a path as visited. -/
def registerField (v : validation) (name : String) : validation :=
  { v with fieldsExist := name :: v.fieldsExist }

/-- `addError` (`valdn.go:148`): record a message at a path (Go map write:
overwrites any previous binding). -/
def addError (v : validation) (name : String) (msg : String) : validation :=
  { v with errors := setKV v.errors name msg }

/-- `getFieldRules` (`valdn.go:152`): exact-path entry if present, else the
wildcard entry `parent(name) + ".*"` (a missing key reads as the empty
spec). -/
def getFieldRules (rules : Rules) (name : String) : List String :=
  match lookupKV rules name with
  | some val => val
  | none => (lookupKV rules (getParentName name ++ ".*")).getD []

/-- `getParentRules` (`valdn.go:160`): exact-path entry if present; for a
non-empty path fall back to the wildcard entry; for the empty path return the
empty spec. -/
def getParentRules (rules : Rules) (name : String) : List String :=
  match lookupKV rules name with
  | some val => val
  | none =>
      if ¬ name = "" then (lookupKV rules (getParentName name ++ ".*")).getD []
      else []

/-- `Validate` (`valdn.go:43`): validates a single value by an ordered list of
rule expressions.  Empty expressions are skipped; an unregistered rule name is
a panic (`.error`); the first failing rule's error is returned (`.ok (some
msg)`) without evaluating later expressions; `.ok none` means every expression
passed. -/
def Validate (reg : Registry) (name : String) (val : Value)
    (rules : List String) : Except CErr (Option String) :=
  match rules with
  | [] => .ok none
  | r :: rest =>
      if r = "" then Validate reg name val rest
      else
        let p := splitRuleNameAndRuleValue r
        match reg p.1 with
        | none => .error (.unknownRule p.1)
        | some rFunc =>
            match rFunc name val p.2 with
            | some msg => .ok (some msg)
            | none => Validate reg name val rest

/-- Modelled from the spec: Go's `strings.Split` on a one-character separator
(used for `TagSeparator = "|"`): empty parts are preserved, splitting the
empty string yields one empty part. -/
def splitOnChar (sep : Char) : List Char → List (List Char)
  | [] => [[]]
  | c :: cs =>
      let r := splitOnChar sep cs
      if c = sep then [] :: r
      else
        match r with
        | [] => [[c]]
        | h :: t => (c :: h) :: t

/-- `strings.Split(tRules, TagSeparator)` with the default `TagSeparator`
`"|"` (`valdn.go:203`). -/
def splitTag (t : String) : List String :=
  (splitOnChar '|' t.toList).map String.mk

/-- The insertion step of `addTagRules` (`valdn.go:200`): "add tag rules only
if field has no rules" — insert the tag-derived spec at `name` only when the
table has no entry at that exact path and the tag is non-empty. -/
def insertTagRule (rules : Rules) (name : String) (tag : String) : Rules :=
  if lookupKV rules name = none ∧ ¬ tag = "" then
    rules ++ [(name, splitTag tag)]
  else rules

mutual
/-- `addTagRules` (`valdn.go:172`): walk the value's shape; for canonical maps
and slices recurse into composite entries; for a struct, run the struct-type
walk `addTagRulesFields`. -/
def addTagRules (rules : Rules) (val : Value) (parName : String) : Rules :=
  let pj := makeParentNameJoinable parName
  match val with
  | .mapV es => addTagRulesMapEntries rules es pj
  | .sliceV es => addTagRulesSliceEntries rules es 0 pj
  | .structV fs => addTagRulesFields rules fs pj
  | _ => rules

/-- The `range m` loop of `addTagRules` (`valdn.go:175`): recurse into every
composite entry of a canonical map.  (Recursing into a non-canonical
map/slice entry is a no-op, as in Go: no branch of `addTagRules` fires.) -/
def addTagRulesMapEntries (rules : Rules) (es : MEntries) (pj : String) :
    Rules :=
  match es with
  | .nil => rules
  | .cons k i rest =>
      let r' :=
        if IsStruct i || IsMap i || IsSlice i then addTagRules rules i (pj ++ k)
        else rules
      addTagRulesMapEntries r' rest pj

/-- The `range s` loop of `addTagRules` (`valdn.go:184`). -/
def addTagRulesSliceEntries (rules : Rules) (es : SEntries) (idx : Nat)
    (pj : String) : Rules :=
  match es with
  | .nil => rules
  | .cons i rest =>
      let r' :=
        if IsStruct i || IsMap i || IsSlice i then
          addTagRules rules i (pj ++ toStringIdx idx)
        else rules
      addTagRulesSliceEntries r' rest (idx + 1) pj

/-- The struct-type walk of `addTagRules` (`valdn.go:193`): for every field
(exported or not), insert its tag-derived rules only if the table has no
entry at the field's exact path and the tag is non-empty; then recurse into
struct-typed fields.  (For map/slice-typed fields the recursive Go call
`addTagRules(f, typ, name)` is a no-op: `f` is a `reflect.StructField`, so
neither value branch fires and `typ.Kind()` is not `Struct`.) -/
def addTagRulesFields (rules : Rules) (fs : SFields) (pj : String) : Rules :=
  match fs with
  | .nil => rules
  | .cons fname tag _exported fval rest =>
      let name := pj ++ fname
      let r1 := insertTagRule rules name tag
      let r2 :=
        match fval with
        | .structV gs => addTagRulesFields r1 gs (makeParentNameJoinable name)
        | _ => r1
      addTagRulesFields r2 rest pj
end

mutual
/-- `validateByType` (`valdn.go:255`): register the path as visited, then
dispatch on the value's reflection Kind.  The bodies of
`validateStruct`/`validateMap`/`validateSlice` (`valdn.go:214/227/241`) are
inlined branch by branch: for a canonical map/slice the `reflect.DeepEqual`
type check succeeds, for a non-canonical one it panics, and reflecting over
the fields of a value the engine dispatched as a struct always succeeds. -/
def validateByType (reg : Registry) (v : validation) (name : String)
    (val : Value) : Except CErr validation :=
  let v := registerField v name
  let rules := getFieldRules v.rules name
  match val with
  | .structV fs =>
      match Validate reg name (.structV fs) (getParentRules v.rules name) with
      | .error e => .error e
      | .ok (some msg) => .ok (addError v name msg)
      | .ok none => validateStructFields reg v fs (makeParentNameJoinable name)
  | .mapV es =>
      match Validate reg name (.mapV es) (getParentRules v.rules name) with
      | .error e => .error e
      | .ok (some msg) => .ok (addError v name msg)
      | .ok none => validateMapFields reg v es (makeParentNameJoinable name)
  | .badMap t => .error (.unsupportedType name t)
  | .sliceV es =>
      match Validate reg name (.sliceV es) (getParentRules v.rules name) with
      | .error e => .error e
      | .ok (some msg) => .ok (addError v name msg)
      | .ok none => validateSliceFields reg v es 0 (makeParentNameJoinable name)
  | .badSlice t => .error (.unsupportedType name t)
  | .scalar s =>
      match Validate reg name (.scalar s) rules with
      | .error e => .error e
      | .ok (some msg) => .ok (addError v name msg)
      | .ok none => .ok v

/-- `validateStructFields` (`valdn.go:274`): validate every exported field of
a struct; `pj` is the already-joinable parent name. -/
def validateStructFields (reg : Registry) (v : validation) (fs : SFields)
    (pj : String) : Except CErr validation :=
  match fs with
  | .nil => .ok v
  | .cons fname _tag exported fval rest =>
      if exported then
        match validateByType reg v (pj ++ fname) fval with
        | .error e => .error e
        | .ok v' => validateStructFields reg v' rest pj
      else validateStructFields reg v rest pj

/-- `validateMapFields` (`valdn.go:286`). -/
def validateMapFields (reg : Registry) (v : validation) (es : MEntries)
    (pj : String) : Except CErr validation :=
  match es with
  | .nil => .ok v
  | .cons k value rest =>
      match validateByType reg v (pj ++ k) value with
      | .error e => .error e
      | .ok v' => validateMapFields reg v' rest pj

/-- `validateSliceFields` (`valdn.go:295`): `idx` is the index of the first
element of `es` in the original slice. -/
def validateSliceFields (reg : Registry) (v : validation) (es : SEntries)
    (idx : Nat) (pj : String) : Except CErr validation :=
  match es with
  | .nil => .ok v
  | .cons value rest =>
      match validateByType reg v (pj ++ toStringIdx idx) value with
      | .error e => .error e
      | .ok v' => validateSliceFields reg v' rest (idx + 1) pj
end

/-- `validateStruct` (`valdn.go:214`) as a standalone function (this is how
the root call of `ValidateStruct` enters the traversal): evaluate the node's
own rules; on failure record the error at `name` and do not descend; on
success walk the fields (reflecting over a non-struct would panic). -/
def validateStruct (reg : Registry) (v : validation) (val : Value)
    (name : String) : Except CErr validation :=
  match Validate reg name val (getParentRules v.rules name) with
  | .error e => .error e
  | .ok (some msg) => .ok (addError v name msg)
  | .ok none =>
      match val with
      | .structV fs => validateStructFields reg v fs (makeParentNameJoinable name)
      | _ => .error .notStruct

/-- `validateMap` (`valdn.go:227`) as a standalone function: panic if the
value is not a canonical `map[string]interface\x7b\x7d`; otherwise evaluate
the node's own rules, and on success walk the entries. -/
def validateMap (reg : Registry) (v : validation) (val : Value)
    (name : String) : Except CErr validation :=
  match val with
  | .mapV es =>
      match Validate reg name val (getParentRules v.rules name) with
      | .error e => .error e
      | .ok (some msg) => .ok (addError v name msg)
      | .ok none => validateMapFields reg v es (makeParentNameJoinable name)
  | w => .error (.unsupportedType name (typeName w))

/-- `validateSlice` (`valdn.go:241`) as a standalone function. -/
def validateSlice (reg : Registry) (v : validation) (val : Value)
    (name : String) : Except CErr validation :=
  match val with
  | .sliceV es =>
      match Validate reg name val (getParentRules v.rules name) with
      | .error e => .error e
      | .ok (some msg) => .ok (addError v name msg)
      | .ok none => validateSliceFields reg v es 0 (makeParentNameJoinable name)
  | w => .error (.unsupportedType name (typeName w))

/-- The inner `range rules` loop body of `validateNonExistRequiredFields`
(`valdn.go:309`): if the expression's rule name is `required` and the path
was never visited, record the required message at the path. -/
def requiredStep (v : validation) (name : String) (r : String) : validation :=
  let p := splitRuleNameAndRuleValue r
  if p.1 = "required" then
    if name ∈ v.fieldsExist then v
    else addError v name (GetErrMsg "required" p.2 name "")
  else v

/-- The outer loop body of `validateNonExistRequiredFields` for one rule-table
entry: the literal key `"*"` is skipped (`valdn.go:306`). -/
def vNERFEntry (v : validation) (entry : String × List String) : validation :=
  if entry.1 = "*" then v
  else List.foldl (fun acc r => requiredStep acc entry.1 r) v entry.2

/-- `validateNonExistRequiredFields` (`valdn.go:304`): the post-traversal
completeness pass over every rule-table entry. -/
def validateNonExistRequiredFields (v : validation) : validation :=
  List.foldl vNERFEntry v v.rules

/-- `ValidateStruct` (`valdn.go:69`): panic if `val` is not a struct; create a
fresh session over a copy of the rules, merge tag rules, traverse, run the
completeness pass and return the error map. -/
def ValidateStruct (reg : Registry) (val : Value) (rules : Rules) :
    Except CErr Errors :=
  if IsStruct val then
    let v0 := createNewValidation rules
    let v1 := { v0 with rules := addTagRules v0.rules val "" }
    match validateStruct reg v1 val "" with
    | .error e => .error e
    | .ok v' => .ok (validateNonExistRequiredFields v').errors
  else .error .notStruct

/-- `ValidateMap` (`valdn.go:89`): the argument is a typed
`map[string]interface\x7b\x7d`, i.e. a canonical map spine. -/
def ValidateMap (reg : Registry) (es : MEntries) (rules : Rules) :
    Except CErr Errors :=
  let v0 := createNewValidation rules
  let v1 := { v0 with rules := addTagRules v0.rules (.mapV es) "" }
  match validateMap reg v1 (.mapV es) "" with
  | .error e => .error e
  | .ok v' => .ok (validateNonExistRequiredFields v').errors

/-- `ValidateSlice` (`valdn.go:106`): the argument is a typed
`[]interface\x7b\x7d`, i.e. a canonical slice spine. -/
def ValidateSlice (reg : Registry) (es : SEntries) (rules : Rules) :
    Except CErr Errors :=
  let v0 := createNewValidation rules
  let v1 := { v0 with rules := addTagRules v0.rules (.sliceV es) "" }
  match validateSlice reg v1 (.sliceV es) "" with
  | .error e => .error e
  | .ok v' => .ok (validateNonExistRequiredFields v').errors

/-- Whether a Rule Spec contains a `required` expression (the condition the
completeness pass `validateNonExistRequiredFields` reacts to). -/
def hasRequiredRule (spec : List String) : Bool :=
  spec.any fun r => (splitRuleNameAndRuleValue r).1 == "required"

/-- The post-state relation established by the traversal on the session: the
rule table is untouched, the visited set only grows, and every error key is
either an old error key or a visited path. -/
def SessionInv (v v' : validation) : Prop :=
  v'.rules = v.rules ∧
  (∀ x, x ∈ v.fieldsExist → x ∈ v'.fieldsExist) ∧
  (∀ k, (lookupKV v'.errors k).isSome = true →
    (lookupKV v.errors k).isSome = true ∨ k ∈ v'.fieldsExist)

/-- A heap of `Rules` map objects; object identity is the index in the
list.  This makes the Go-level aliasing statements expressible: `copyRules`
in `createNewValidation` allocates a fresh object, so the tag-rule merge
mutates the new object only. -/
abbrev RulesStore := List Rules

/-- `ValidateMap` with the caller's rule-table object made explicit: the
caller's table is the object at `idx`; the session's table is a fresh copy,
appended as a new object at index `store.length`, into which `addTagRules`
merges the tag rules.  Returns the call's result and the final heap. -/
def ValidateMapWithStore (reg : Registry) (store : RulesStore) (idx : Nat)
    (es : MEntries) : Except CErr Errors × RulesStore :=
  (ValidateMap reg es (store.getD idx []),
   store ++ [addTagRules (copyRules (store.getD idx [])) (.mapV es) ""])

/-- `ValidateStruct` with the caller's rule-table object made explicit.  When
the value is not a struct the call panics before `createNewValidation`, so no
session object is allocated. -/
def ValidateStructWithStore (reg : Registry) (store : RulesStore) (idx : Nat)
    (val : Value) : Except CErr Errors × RulesStore :=
  if IsStruct val then
    (ValidateStruct reg val (store.getD idx []),
     store ++ [addTagRules (copyRules (store.getD idx [])) val ""])
  else (.error .notStruct, store)

/-- `ValidateSlice` with the caller's rule-table object made explicit. -/
def ValidateSliceWithStore (reg : Registry) (store : RulesStore) (idx : Nat)
    (es : SEntries) : Except CErr Errors × RulesStore :=
  (ValidateSlice reg es (store.getD idx []),
   store ++ [addTagRules (copyRules (store.getD idx [])) (.sliceV es) ""])

/-! ### Concrete fixtures used by counterexamples and witnesses -/

/-- A registry with a single rule `fail` that always fails. -/
def regFail : Registry := fun n =>
  if n = "fail" then some (fun name _ _ => some (name ++ " boom")) else none

/-- The empty registry. -/
def regNone : Registry := fun _ => none

/-- A registry whose `required` rule always fails with a custom message
(rule functions are external; any function may be registered under any
name). -/
def regCustomRequired : Registry := fun n =>
  if n = "required" then some (fun name _ _ => some (name ++ " CUSTOM"))
  else none

/-- Input for the C1 counterexample: the map `{"user": {"name": "x"}}`. -/
def mapUser : MEntries :=
  .cons "user" (.mapV (.cons "name" (.scalar "x") .nil)) .nil

/-! ## Lemmas about the association-list (Go map) operations -/

theorem lookupKV_setKV_self {α : Type} (m : List (String × α)) (k : String)
    (v : α) : lookupKV (setKV m k v) k = some v := by
  induction m with
  | nil => simp [setKV, lookupKV]
  | cons h t ih =>
      obtain ⟨k', v'⟩ := h
      by_cases hk : k' = k
      · subst hk; simp [setKV, lookupKV]
      · simp [setKV, lookupKV, hk, ih]

theorem lookupKV_setKV_ne {α : Type} (m : List (String × α)) (k k' : String)
    (v : α) (h : ¬ k = k') : lookupKV (setKV m k v) k' = lookupKV m k' := by
  induction m with
  | nil => simp [setKV, lookupKV, h]
  | cons hd t ih =>
      obtain ⟨a, b⟩ := hd
      by_cases ha : a = k
      · subst ha; simp [setKV, lookupKV, h, ih]
      · simp [setKV, lookupKV, ha, ih]

theorem setKV_setKV {α : Type} (m : List (String × α)) (k : String)
    (a b : α) : setKV (setKV m k a) k b = setKV m k b := by
  induction m with
  | nil => simp [setKV]
  | cons hd t ih =>
      obtain ⟨k', v'⟩ := hd
      by_cases hk : k' = k
      · subst hk; simp [setKV]
      · simp [setKV, hk, ih]

theorem lookupKV_append_left {α : Type} (l l' : List (String × α)) (k : String)
    (h : (lookupKV l k).isSome = true) :
    lookupKV (l ++ l') k = lookupKV l k := by
  induction l with
  | nil => simp [lookupKV] at h
  | cons hd t ih =>
      obtain ⟨a, b⟩ := hd
      by_cases ha : a = k
      · simp [lookupKV, ha]
      · rw [List.cons_append]
        simp only [lookupKV, ha, if_false] at h ⊢
        exact ih h

theorem copyRules_eq (r : Rules) : copyRules r = r := by
  induction r with
  | nil => rfl
  | cons hd t ih => obtain ⟨k, v⟩ := hd; simp [copyRules, ih]

theorem getD_append_left {α : Type} (l l' : List α) (d : α) (n : Nat)
    (h : n < l.length) : (l ++ l').getD n d = l.getD n d := by
  induction l generalizing n with
  | nil => simp at h
  | cons hd t ih =>
      cases n with
      | zero => rfl
      | succ m =>
          simp only [List.length_cons] at h
          simpa [List.getD] using ih m (by omega)

/-! ## The completeness pass `validateNonExistRequiredFields` -/

theorem requiredStep_fieldsExist (v : validation) (name r : String) :
    (requiredStep v name r).fieldsExist = v.fieldsExist := by
  simp only [requiredStep, addError]
  split <;> [skip; rfl]
  split <;> rfl

theorem requiredStep_rules (v : validation) (name r : String) :
    (requiredStep v name r).rules = v.rules := by
  simp only [requiredStep, addError]
  split <;> [skip; rfl]
  split <;> rfl

theorem requiredFold_fieldsExist (spec : List String) (v : validation)
    (name : String) :
    (List.foldl (fun acc r => requiredStep acc name r) v spec).fieldsExist
      = v.fieldsExist := by
  induction spec generalizing v with
  | nil => rfl
  | cons r rest ih => simp [List.foldl, ih, requiredStep_fieldsExist]

theorem requiredFold_rules (spec : List String) (v : validation)
    (name : String) :
    (List.foldl (fun acc r => requiredStep acc name r) v spec).rules
      = v.rules := by
  induction spec generalizing v with
  | nil => rfl
  | cons r rest ih => simp [List.foldl, ih, requiredStep_rules]

theorem requiredFold_errors (spec : List String) (v : validation)
    (name : String) :
    (List.foldl (fun acc r => requiredStep acc name r) v spec).errors =
      if hasRequiredRule spec = true ∧ ¬ name ∈ v.fieldsExist
      then setKV v.errors name (GetErrMsg "required" "" name "")
      else v.errors := by
  induction spec generalizing v with
  | nil => simp [hasRequiredRule]
  | cons r rest ih =>
      by_cases hr : (splitRuleNameAndRuleValue r).1 = "required"
      · by_cases hmem : name ∈ v.fieldsExist
        · have hstep : requiredStep v name r = v := by
            simp [requiredStep, hr, hmem]
          simp only [List.foldl, hstep, ih]
          simp [hmem]
        · have hstep : requiredStep v name r
              = addError v name (GetErrMsg "required"
                  (splitRuleNameAndRuleValue r).2 name "") := by
            simp [requiredStep, hr, hmem]
          have hmsg : GetErrMsg "required" (splitRuleNameAndRuleValue r).2 name ""
              = GetErrMsg "required" "" name "" := rfl
          simp only [List.foldl, hstep, hmsg, ih, addError]
          have hreq : hasRequiredRule (r :: rest) = true := by
            simp [hasRequiredRule, hr]
          simp only [addError, hmem, not_false_iff, and_true, hreq, if_true]
          split
          · exact setKV_setKV v.errors name _ _
          · rfl
      · have hstep : requiredStep v name r = v := by
          simp [requiredStep, hr]
        have hreq : hasRequiredRule (r :: rest) = hasRequiredRule rest := by
          simp [hasRequiredRule, hr]
        simp [List.foldl, hstep, ih, hreq]

theorem vNERFEntry_fieldsExist (v : validation) (e : String × List String) :
    (vNERFEntry v e).fieldsExist = v.fieldsExist := by
  simp only [vNERFEntry]
  split
  · rfl
  · exact requiredFold_fieldsExist e.2 v e.1

theorem vNERFEntry_rules (v : validation) (e : String × List String) :
    (vNERFEntry v e).rules = v.rules := by
  simp only [vNERFEntry]
  split
  · rfl
  · exact requiredFold_rules e.2 v e.1

theorem vNERFEntry_errors (v : validation) (e : String × List String) :
    (vNERFEntry v e).errors =
      if ¬ e.1 = "*" ∧ hasRequiredRule e.2 = true ∧ ¬ e.1 ∈ v.fieldsExist
      then setKV v.errors e.1 (GetErrMsg "required" "" e.1 "")
      else v.errors := by
  simp only [vNERFEntry]
  split
  · rename_i hstar
    simp [hstar]
  · rename_i hstar
    rw [requiredFold_errors]
    by_cases hreq : hasRequiredRule e.2 = true ∧ ¬ e.1 ∈ v.fieldsExist
    · simp [hreq, hstar]
    · simp [hreq, hstar]

theorem vNERF_foldl_fieldsExist (entries : List (String × List String))
    (v : validation) :
    (List.foldl vNERFEntry v entries).fieldsExist = v.fieldsExist := by
  induction entries generalizing v with
  | nil => rfl
  | cons e rest ih => simp [List.foldl, ih, vNERFEntry_fieldsExist]

theorem vNERF_foldl_lookup (entries : List (String × List String))
    (v : validation) (k : String) :
    lookupKV (List.foldl vNERFEntry v entries).errors k =
      if (entries.any fun e => e.1 == k && !(k == "*") && hasRequiredRule e.2)
            = true ∧ ¬ k ∈ v.fieldsExist
      then some (GetErrMsg "required" "" k "")
      else lookupKV v.errors k := by
  induction entries generalizing v with
  | nil => simp
  | cons e rest ih =>
      have hfe : (vNERFEntry v e).fieldsExist = v.fieldsExist :=
        vNERFEntry_fieldsExist v e
      rw [List.foldl_cons, ih, hfe]
      by_cases hk : e.1 = k
      · by_cases hstar : k = "*"
        · have he : (vNERFEntry v e).errors = v.errors := by
            rw [vNERFEntry_errors]
            simp [hk, hstar]
          simp [he, hk, hstar]
        · by_cases hreq : hasRequiredRule e.2 = true
          · by_cases hmem : k ∈ v.fieldsExist
            · have he : (vNERFEntry v e).errors = v.errors := by
                rw [vNERFEntry_errors]
                simp [hk, hmem]
              simp [he, hmem]
            · have he : (vNERFEntry v e).errors =
                  setKV v.errors k (GetErrMsg "required" "" k "") := by
                rw [vNERFEntry_errors]
                simp [hk, hstar, hreq, hmem]
              have hany : (List.any (e :: rest)
                  fun e => e.1 == k && !(k == "*") && hasRequiredRule e.2)
                    = true := by
                simp [List.any_cons, hk, hstar, hreq]
              rw [hany]
              simp only [hmem, not_false_iff, and_true, if_true]
              split
              · rfl
              · rw [he, lookupKV_setKV_self]
          · have he : (vNERFEntry v e).errors = v.errors := by
              rw [vNERFEntry_errors]
              simp [hreq]
            have hany : (List.any (e :: rest)
                fun e => e.1 == k && !(k == "*") && hasRequiredRule e.2)
                  = (rest.any fun e => e.1 == k && !(k == "*")
                      && hasRequiredRule e.2) := by
              simp [List.any_cons, hreq]
            rw [hany, he]
      · have he : lookupKV (vNERFEntry v e).errors k = lookupKV v.errors k := by
          rw [vNERFEntry_errors]
          split
          · exact lookupKV_setKV_ne v.errors e.1 k _ hk
          · rfl
        have hany : (List.any (e :: rest)
            fun e => e.1 == k && !(k == "*") && hasRequiredRule e.2)
              = (rest.any fun e => e.1 == k && !(k == "*")
                  && hasRequiredRule e.2) := by
          simp [List.any_cons, hk]
        rw [hany, he]

/-- Lookup characterisation of the completeness pass: a path `k` carries the
required-but-absent message exactly when some rule-table entry is keyed `k`
(k not the literal `"*"`), its spec contains a `required` expression and `k`
was never visited; every other path's error binding is untouched. -/
theorem vNERF_errors_lookup (v : validation) (k : String) :
    lookupKV (validateNonExistRequiredFields v).errors k =
      if (v.rules.any fun e => e.1 == k && !(k == "*") && hasRequiredRule e.2)
            = true ∧ ¬ k ∈ v.fieldsExist
      then some (GetErrMsg "required" "" k "")
      else lookupKV v.errors k :=
  vNERF_foldl_lookup v.rules v k

/-! ## The traversal invariant -/

theorem sessionInv_refl (v : validation) : SessionInv v v :=
  ⟨rfl, fun _ hx => hx, fun _ hk => Or.inl hk⟩

theorem sessionInv_trans {a b c : validation} (h1 : SessionInv a b)
    (h2 : SessionInv b c) : SessionInv a c := by
  obtain ⟨hr1, hf1, he1⟩ := h1
  obtain ⟨hr2, hf2, he2⟩ := h2
  refine ⟨hr2.trans hr1, fun x hx => hf2 x (hf1 x hx), fun k hk => ?_⟩
  rcases he2 k hk with hb | hc
  · rcases he1 k hb with ha | hbf
    · exact Or.inl ha
    · exact Or.inr (hf2 k hbf)
  · exact Or.inr hc

theorem sessionInv_registerField (v : validation) (name : String) :
    SessionInv v (registerField v name) := by
  refine ⟨rfl, fun x hx => ?_, fun k hk => Or.inl hk⟩
  simp [registerField]
  exact Or.inr hx

theorem mem_registerField (v : validation) (name : String) :
    name ∈ (registerField v name).fieldsExist := by
  simp [registerField]

theorem sessionInv_addError_registered (v : validation) (name msg : String) :
    SessionInv v (addError (registerField v name) name msg) := by
  refine ⟨rfl, fun x hx => ?_, fun k hk => ?_⟩
  · simp [registerField, addError]
    exact Or.inr hx
  · by_cases hkn : k = name
    · subst hkn
      right
      simp [addError, registerField]
    · left
      simpa [addError, lookupKV_setKV_ne _ name k _ fun h => hkn h.symm] using hk

mutual
/-- `validateByType` preserves the session invariant: the rule table is
untouched, the visited set grows, and every new error key is a visited
path. -/
theorem validateByType_inv (reg : Registry) (v : validation) (name : String)
    (val : Value) (v' : validation)
    (h : validateByType reg v name val = .ok v') : SessionInv v v' := by
  cases val with
  | scalar s =>
      simp only [validateByType] at h
      split at h
      · simp at h
      · cases h
        exact sessionInv_addError_registered v name _
      · cases h
        exact sessionInv_registerField v name
  | structV fs =>
      simp only [validateByType] at h
      split at h
      · simp at h
      · cases h
        exact sessionInv_addError_registered v name _
      · exact sessionInv_trans (sessionInv_registerField v name)
          (validateStructFields_inv reg _ fs _ v' h)
  | mapV es =>
      simp only [validateByType] at h
      split at h
      · simp at h
      · cases h
        exact sessionInv_addError_registered v name _
      · exact sessionInv_trans (sessionInv_registerField v name)
          (validateMapFields_inv reg _ es _ v' h)
  | badMap t => simp [validateByType] at h
  | sliceV es =>
      simp only [validateByType] at h
      split at h
      · simp at h
      · cases h
        exact sessionInv_addError_registered v name _
      · exact sessionInv_trans (sessionInv_registerField v name)
          (validateSliceFields_inv reg _ es 0 _ v' h)
  | badSlice t => simp [validateByType] at h

theorem validateStructFields_inv (reg : Registry) (v : validation)
    (fs : SFields) (pj : String) (v' : validation)
    (h : validateStructFields reg v fs pj = .ok v') : SessionInv v v' := by
  cases fs with
  | nil =>
      simp only [validateStructFields] at h
      cases h
      exact sessionInv_refl v
  | cons fname tag exported fval rest =>
      simp only [validateStructFields] at h
      cases exported with
      | false =>
          simp only [Bool.false_eq_true, if_false] at h
          exact validateStructFields_inv reg v rest pj v' h
      | true =>
          simp only [if_true] at h
          split at h
          · simp at h
          · rename_i v1 heq
            exact sessionInv_trans
              (validateByType_inv reg v (pj ++ fname) fval v1 heq)
              (validateStructFields_inv reg v1 rest pj v' h)

theorem validateMapFields_inv (reg : Registry) (v : validation)
    (es : MEntries) (pj : String) (v' : validation)
    (h : validateMapFields reg v es pj = .ok v') : SessionInv v v' := by
  cases es with
  | nil =>
      simp only [validateMapFields] at h
      cases h
      exact sessionInv_refl v
  | cons k value rest =>
      simp only [validateMapFields] at h
      split at h
      · simp at h
      · rename_i v1 heq
        exact sessionInv_trans
          (validateByType_inv reg v (pj ++ k) value v1 heq)
          (validateMapFields_inv reg v1 rest pj v' h)

theorem validateSliceFields_inv (reg : Registry) (v : validation)
    (es : SEntries) (idx : Nat) (pj : String) (v' : validation)
    (h : validateSliceFields reg v es idx pj = .ok v') : SessionInv v v' := by
  cases es with
  | nil =>
      simp only [validateSliceFields] at h
      cases h
      exact sessionInv_refl v
  | cons value rest =>
      simp only [validateSliceFields] at h
      split at h
      · simp at h
      · rename_i v1 heq
        exact sessionInv_trans
          (validateByType_inv reg v (pj ++ toStringIdx idx) value v1 heq)
          (validateSliceFields_inv reg v1 rest (idx + 1) pj v' h)
end

/-- After a successful `validateByType` dispatch at `name`, the path `name`
is in the visited set: it is registered before any rule is evaluated. -/
theorem validateByType_registered (reg : Registry) (v : validation)
    (name : String) (val : Value) (v' : validation)
    (h : validateByType reg v name val = .ok v') :
    name ∈ v'.fieldsExist := by
  cases val with
  | scalar s =>
      simp only [validateByType] at h
      split at h
      · simp at h
      · cases h
        simpa [addError] using mem_registerField v name
      · cases h
        exact mem_registerField v name
  | structV fs =>
      simp only [validateByType] at h
      split at h
      · simp at h
      · cases h
        simpa [addError] using mem_registerField v name
      · exact (validateStructFields_inv reg _ fs _ v' h).2.1 name
          (mem_registerField v name)
  | mapV es =>
      simp only [validateByType] at h
      split at h
      · simp at h
      · cases h
        simpa [addError] using mem_registerField v name
      · exact (validateMapFields_inv reg _ es _ v' h).2.1 name
          (mem_registerField v name)
  | badMap t => simp [validateByType] at h
  | sliceV es =>
      simp only [validateByType] at h
      split at h
      · simp at h
      · cases h
        simpa [addError] using mem_registerField v name
      · exact (validateSliceFields_inv reg _ es 0 _ v' h).2.1 name
          (mem_registerField v name)
  | badSlice t => simp [validateByType] at h

/-! ## The annotation merger inserts only at absent paths -/

theorem insertTagRule_preserves (rules : Rules) (name tag k : String)
    (h : (lookupKV rules k).isSome = true) :
    lookupKV (insertTagRule rules name tag) k = lookupKV rules k := by
  simp only [insertTagRule]
  split
  · exact lookupKV_append_left rules _ k h
  · rfl

mutual
/-- `addTagRules` never changes the binding of a path that already has an
entry in the rule table (it only inserts at absent paths). -/
theorem addTagRules_preserves (rules : Rules) (val : Value) (parName k : String)
    (h : (lookupKV rules k).isSome = true) :
    lookupKV (addTagRules rules val parName) k = lookupKV rules k := by
  cases val with
  | mapV es =>
      exact addTagRulesMapEntries_preserves rules es _ k h
  | sliceV es =>
      exact addTagRulesSliceEntries_preserves rules es 0 _ k h
  | structV fs =>
      exact addTagRulesFields_preserves rules fs _ k h
  | scalar s => rfl
  | badMap t => rfl
  | badSlice t => rfl

theorem addTagRulesMapEntries_preserves (rules : Rules) (es : MEntries)
    (pj k : String) (h : (lookupKV rules k).isSome = true) :
    lookupKV (addTagRulesMapEntries rules es pj) k = lookupKV rules k := by
  cases es with
  | nil => rfl
  | cons key i rest =>
      simp only [addTagRulesMapEntries]
      split
      · have h1 := addTagRules_preserves rules i (pj ++ key) k h
        have h1s : (lookupKV (addTagRules rules i (pj ++ key)) k).isSome
            = true := by rw [h1]; exact h
        rw [addTagRulesMapEntries_preserves _ rest pj k h1s, h1]
      · exact addTagRulesMapEntries_preserves rules rest pj k h

theorem addTagRulesSliceEntries_preserves (rules : Rules) (es : SEntries)
    (idx : Nat) (pj k : String) (h : (lookupKV rules k).isSome = true) :
    lookupKV (addTagRulesSliceEntries rules es idx pj) k = lookupKV rules k := by
  cases es with
  | nil => rfl
  | cons i rest =>
      simp only [addTagRulesSliceEntries]
      split
      · have h1 := addTagRules_preserves rules i (pj ++ toStringIdx idx) k h
        have h1s : (lookupKV (addTagRules rules i (pj ++ toStringIdx idx))
            k).isSome = true := by rw [h1]; exact h
        rw [addTagRulesSliceEntries_preserves _ rest (idx + 1) pj k h1s, h1]
      · exact addTagRulesSliceEntries_preserves rules rest (idx + 1) pj k h

theorem addTagRulesFields_preserves (rules : Rules) (fs : SFields)
    (pj k : String) (h : (lookupKV rules k).isSome = true) :
    lookupKV (addTagRulesFields rules fs pj) k = lookupKV rules k := by
  cases fs with
  | nil => rfl
  | cons fname tag ex fval rest =>
      have h1 := insertTagRule_preserves rules (pj ++ fname) tag k h
      have h1s : (lookupKV (insertTagRule rules (pj ++ fname) tag) k).isSome
          = true := by rw [h1]; exact h
      cases fval with
      | structV gs =>
          have h2 := addTagRulesFields_preserves
            (insertTagRule rules (pj ++ fname) tag) gs
            (makeParentNameJoinable (pj ++ fname)) k h1s
          have h2s : (lookupKV (addTagRulesFields
              (insertTagRule rules (pj ++ fname) tag) gs
              (makeParentNameJoinable (pj ++ fname))) k).isSome = true := by
            rw [h2]; exact h1s
          show lookupKV (addTagRulesFields (addTagRulesFields
              (insertTagRule rules (pj ++ fname) tag) gs
              (makeParentNameJoinable (pj ++ fname))) rest pj) k
            = lookupKV rules k
          rw [addTagRulesFields_preserves _ rest pj k h2s, h2, h1]
      | scalar s =>
          show lookupKV (addTagRulesFields
              (insertTagRule rules (pj ++ fname) tag) rest pj) k
            = lookupKV rules k
          rw [addTagRulesFields_preserves _ rest pj k h1s, h1]
      | mapV es =>
          show lookupKV (addTagRulesFields
              (insertTagRule rules (pj ++ fname) tag) rest pj) k
            = lookupKV rules k
          rw [addTagRulesFields_preserves _ rest pj k h1s, h1]
      | badMap t =>
          show lookupKV (addTagRulesFields
              (insertTagRule rules (pj ++ fname) tag) rest pj) k
            = lookupKV rules k
          rw [addTagRulesFields_preserves _ rest pj k h1s, h1]
      | sliceV es =>
          show lookupKV (addTagRulesFields
              (insertTagRule rules (pj ++ fname) tag) rest pj) k
            = lookupKV rules k
          rw [addTagRulesFields_preserves _ rest pj k h1s, h1]
      | badSlice t =>
          show lookupKV (addTagRulesFields
              (insertTagRule rules (pj ++ fname) tag) rest pj) k
            = lookupKV rules k
          rw [addTagRulesFields_preserves _ rest pj k h1s, h1]
end

/-! ## The rule-expression evaluator `Validate` -/

theorem Validate_skip_passing (reg : Registry) (name : String) (val : Value)
    (pre rs : List String)
    (hpre : ∀ s ∈ pre, ¬ s = "" →
      ∃ f, reg (splitRuleNameAndRuleValue s).1 = some f ∧
        f name val (splitRuleNameAndRuleValue s).2 = none) :
    Validate reg name val (pre ++ rs) = Validate reg name val rs := by
  induction pre with
  | nil => rfl
  | cons s pre' ih =>
      have ih' := ih fun t ht hne => hpre t (by simp [ht]) hne
      rw [List.cons_append]
      by_cases he : s = ""
      · rw [Validate]
        simp only [he, if_true]
        exact ih'
      · obtain ⟨f, hf, hpass⟩ := hpre s (by simp) he
        rw [Validate]
        simp only [he, if_false, hf, hpass]
        exact ih'

theorem Validate_first_failure (reg : Registry) (name : String) (val : Value)
    (pre post : List String) (r msg : String)
    (hpre : ∀ s ∈ pre, ¬ s = "" →
      ∃ f, reg (splitRuleNameAndRuleValue s).1 = some f ∧
        f name val (splitRuleNameAndRuleValue s).2 = none)
    (hr : ¬ r = "")
    (hfail : ∃ f, reg (splitRuleNameAndRuleValue r).1 = some f ∧
      f name val (splitRuleNameAndRuleValue r).2 = some msg) :
    Validate reg name val (pre ++ r :: post) = .ok (some msg) := by
  rw [Validate_skip_passing reg name val pre (r :: post) hpre]
  obtain ⟨f, hf, hmsg⟩ := hfail
  rw [Validate]
  simp [hr, hf, hmsg]

theorem Validate_unknown_rule (reg : Registry) (name : String) (val : Value)
    (pre post : List String) (r : String)
    (hpre : ∀ s ∈ pre, ¬ s = "" →
      ∃ f, reg (splitRuleNameAndRuleValue s).1 = some f ∧
        f name val (splitRuleNameAndRuleValue s).2 = none)
    (hr : ¬ r = "")
    (hnone : reg (splitRuleNameAndRuleValue r).1 = none) :
    Validate reg name val (pre ++ r :: post)
      = .error (.unknownRule (splitRuleNameAndRuleValue r).1) := by
  rw [Validate_skip_passing reg name val pre (r :: post) hpre]
  rw [Validate]
  simp [hr, hnone]

theorem Validate_ok_none_iff (reg : Registry) (name : String) (val : Value)
    (rs : List String) :
    Validate reg name val rs = .ok none ↔
      ∀ r ∈ rs, ¬ r = "" →
        ∃ f, reg (splitRuleNameAndRuleValue r).1 = some f ∧
          f name val (splitRuleNameAndRuleValue r).2 = none := by
  induction rs with
  | nil => simp [Validate]
  | cons r rest ih =>
      by_cases he : r = ""
      · subst he
        rw [Validate]
        rw [if_pos rfl]
        rw [ih]
        constructor
        · intro hall s hs hne
          rcases List.mem_cons.mp hs with hs | hs
          · subst hs
            exact absurd rfl hne
          · exact hall s hs hne
        · intro hall s hs hne
          exact hall s (List.mem_cons_of_mem "" hs) hne
      · rw [Validate]
        simp only [he, if_false]
        split
        · rename_i hf
          constructor
          · intro hcon
            exact absurd hcon (by simp)
          · intro hall
            obtain ⟨f, hsome, _⟩ := hall r (List.mem_cons_self r rest) he
            rw [hf] at hsome
            exact absurd hsome (by simp)
        · rename_i f hf
          split
          · rename_i msg hres
            constructor
            · intro hcon
              exact absurd hcon (by simp)
            · intro hall
              obtain ⟨f', hsome, hn⟩ := hall r (List.mem_cons_self r rest) he
              rw [hf] at hsome
              cases hsome
              rw [hres] at hn
              exact absurd hn (by simp)
          · rename_i hres
            rw [ih]
            constructor
            · intro hall s hs hne
              rcases List.mem_cons.mp hs with hs | hs
              · subst hs
                exact ⟨f, hf, hres⟩
              · exact hall s hs hne
            · intro hall s hs hne
              exact hall s (List.mem_cons_of_mem r hs) hne

/-- Faithfulness of the branch-by-branch inlining in `validateByType`: the
inlined dispatch agrees with the standalone
`validateStruct`/`validateMap`/`validateSlice` on every value kind. -/
theorem validateByType_dispatch (reg : Registry) (v : validation)
    (name : String) (val : Value) :
    validateByType reg v name val =
      match val with
      | .structV _ => validateStruct reg (registerField v name) val name
      | .mapV _ => validateMap reg (registerField v name) val name
      | .badMap _ => validateMap reg (registerField v name) val name
      | .sliceV _ => validateSlice reg (registerField v name) val name
      | .badSlice _ => validateSlice reg (registerField v name) val name
      | .scalar _ =>
          match Validate reg name val
              (getFieldRules (registerField v name).rules name) with
          | .error e => .error e
          | .ok (some msg) => .ok (addError (registerField v name) name msg)
          | .ok none => .ok (registerField v name) := by
  cases val <;> rfl

/-! ## Claims -/

/-- C1 (corrected, amended form): if a composite node at path `P` fails its
own rule evaluation, the traversal records exactly the error at `P` and
returns: the visited set is unchanged (no descendant path is visited) and no
binding other than `P`'s is touched, so traversal records no descendant
errors.  (The completeness pass may still add required-errors at descendant
rule-table paths afterwards — see the counterexample.) -/
theorem claim_C1 (reg : Registry) (v : validation) (name msg : String)
    (fs : SFields) (es : MEntries) (ss : SEntries) :
    (Validate reg name (.mapV es) (getParentRules v.rules name)
        = .ok (some msg) →
      validateMap reg v (.mapV es) name = .ok (addError v name msg)) ∧
    (Validate reg name (.structV fs) (getParentRules v.rules name)
        = .ok (some msg) →
      validateStruct reg v (.structV fs) name = .ok (addError v name msg)) ∧
    (Validate reg name (.sliceV ss) (getParentRules v.rules name)
        = .ok (some msg) →
      validateSlice reg v (.sliceV ss) name = .ok (addError v name msg)) ∧
    (addError v name msg).fieldsExist = v.fieldsExist ∧
    lookupKV (addError v name msg).errors name = some msg ∧
    (∀ k, ¬ k = name →
      lookupKV (addError v name msg).errors k = lookupKV v.errors k) := by
  refine ⟨?_, ?_, ?_, rfl, lookupKV_setKV_self v.errors name msg, ?_⟩
  · intro h
    simp only [validateMap, h]
  · intro h
    simp only [validateStruct, h]
  · intro h
    simp only [validateSlice, h]
  · intro k hk
    exact lookupKV_setKV_ne v.errors name k msg fun hh => hk hh.symm

theorem claim_C1_witness :
    Validate regFail "u" (.mapV .nil)
        (getParentRules (⟨[("u", ["fail"])], [], []⟩ : validation).rules "u")
      = .ok (some "u boom") ∧
    validateMap regFail ⟨[("u", ["fail"])], [], []⟩ (.mapV .nil) "u"
      = .ok (addError ⟨[("u", ["fail"])], [], []⟩ "u" "u boom") :=
  ⟨rfl, (claim_C1 regFail ⟨[("u", ["fail"])], [], []⟩ "u" "u boom"
      .nil .nil .nil).1 rfl⟩

/-- C1 counterexample: the map `{"user": {"name": "x"}}` under the rule table
`{"user": ["fail"], "user.name": ["required"]}`: the composite `user` fails
its own rule, yet the returned error map contains an entry at the
strict-descendant path `user.name`, added by the completeness pass. -/
theorem claim_C1_counterexample :
    ValidateMap regFail mapUser
        [("user", ["fail"]), ("user.name", ["required"])]
      = .ok [("user", "user boom"), ("user.name", "user.name is required")] ∧
    (ValidateMap regFail mapUser
        [("user", ["fail"]), ("user.name", ["required"])]).map
          (fun es => lookupKV es "user.name")
      = .ok (some "user.name is required") :=
  ⟨rfl, rfl⟩

/-- C2 (corrected, amended form): a wildcard entry `parent.*` yields traversal
errors only at paths of children actually present (every new error key is a
visited path); the completeness pass, however, treats `parent.*` as a literal
path: whenever its spec contains `required` and the exact path `parent.*` was
never visited, an error keyed literally `parent.*` is added to the map. -/
theorem claim_C2 :
    (∀ (v : validation) (p : String),
      (v.rules.any fun e => e.1 == p ++ ".*" && hasRequiredRule e.2) = true →
      ¬ (p ++ ".*") ∈ v.fieldsExist →
      lookupKV (validateNonExistRequiredFields v).errors (p ++ ".*")
        = some (GetErrMsg "required" "" (p ++ ".*") "")) ∧
    (∀ (reg : Registry) (v : validation) (name : String) (val : Value)
        (v' : validation),
      validateByType reg v name val = .ok v' →
      ∀ k, (lookupKV v'.errors k).isSome = true →
        (lookupKV v.errors k).isSome = true ∨ k ∈ v'.fieldsExist) := by
  constructor
  · intro v p hany hmem
    have hne : ¬ (p ++ ".*") = "*" := by
      intro hcon
      have hlen := congrArg String.length hcon
      rw [String.length_append] at hlen
      have h2 : (".*" : String).length = 2 := rfl
      have h1 : ("*" : String).length = 1 := rfl
      omega
    have hb : ((p ++ ".*") == "*") = false := by
      simp [hne]
    rw [vNERF_errors_lookup]
    have hany' : (v.rules.any fun e =>
        e.1 == p ++ ".*" && !((p ++ ".*") == "*") && hasRequiredRule e.2)
          = true := by
      simp only [hb, Bool.not_false, Bool.and_true]
      exact hany
    simp [hany', hmem]
  · intro reg v name val v' h k hk
    exact (validateByType_inv reg v name val v' h).2.2 k hk

theorem claim_C2_witness :
    ((⟨[("tags.*", ["required"])], [], ["tags"]⟩ : validation).rules.any
        fun e => e.1 == "tags" ++ ".*" && hasRequiredRule e.2) = true ∧
    ¬ ("tags" ++ ".*")
        ∈ (⟨[("tags.*", ["required"])], [], ["tags"]⟩ : validation).fieldsExist ∧
    lookupKV (validateNonExistRequiredFields
        ⟨[("tags.*", ["required"])], [], ["tags"]⟩).errors ("tags" ++ ".*")
      = some (GetErrMsg "required" "" ("tags" ++ ".*") "") ∧
    validateByType regFail ⟨[("a", ["fail"])], [], []⟩ "a" (.scalar "s")
      = .ok ⟨[("a", ["fail"])], [("a", "a boom")], ["a"]⟩ ∧
    ((lookupKV (⟨[("a", ["fail"])], [], []⟩ : validation).errors "a").isSome
        = true ∨
      "a" ∈ (⟨[("a", ["fail"])], [("a", "a boom")], ["a"]⟩ :
        validation).fieldsExist) :=
  ⟨by decide, by decide,
   claim_C2.1 ⟨[("tags.*", ["required"])], [], ["tags"]⟩ "tags"
     (by decide) (by decide),
   rfl,
   claim_C2.2 regFail ⟨[("a", ["fail"])], [], []⟩ "a" (.scalar "s")
     ⟨[("a", ["fail"])], [("a", "a boom")], ["a"]⟩ rfl "a" rfl⟩

/-- C2 counterexample: rule table `{"tags.*": ["required"]}` with input
`{"tags": []}` — no child exists under `tags`, yet the returned error map
contains an entry keyed literally `tags.*` (the completeness pass does not
skip non-root wildcard keys). -/
theorem claim_C2_counterexample :
    ValidateMap regNone (.cons "tags" (.sliceV .nil) .nil)
        [("tags.*", ["required"])]
      = .ok [("tags.*", "tags.* is required")] :=
  rfl

/-- C3 (corrected, amended form): the completeness pass records the required
message at a path `k` exactly when some rule-table entry is keyed `k`, `k` is
not the literal root wildcard `"*"` (which is always skipped), its spec
contains a `required` expression, and `k` was never visited — regardless of
whether an error is already recorded at `k` (a traversal error at a
never-visited path, possible only at the root, is overwritten); bindings of
all other paths, in particular of every visited path, are untouched.
Scenario D holds: `{"profile": ["required"]}` against an input missing
`profile` yields exactly the required message at `profile`. -/
theorem claim_C3 :
    (∀ (v : validation) (k : String),
      lookupKV (validateNonExistRequiredFields v).errors k =
        if (v.rules.any fun e =>
              e.1 == k && !(k == "*") && hasRequiredRule e.2) = true ∧
            ¬ k ∈ v.fieldsExist
        then some (GetErrMsg "required" "" k "")
        else lookupKV v.errors k) ∧
    ValidateMap regNone .nil [("profile", ["required"])]
      = .ok [("profile", "profile is required")] :=
  ⟨vNERF_errors_lookup, rfl⟩

/-- C3 counterexample, two independent failures of the claim as stated:
(a) the entry `"*"` has a `required` spec and its path is never visited and
carries no error, yet the pass adds nothing (the claim requires an error);
(b) with `required` registered to fail with a custom message, the rule table
`{"": ["required"]}` on an empty map records `" CUSTOM"` at the root during
traversal, and the completeness pass then overwrites it with the required
message (the claim says traversal errors are never overwritten). -/
theorem claim_C3_counterexample :
    ValidateMap regNone .nil [("*", ["required"])] = .ok [] ∧
    (validateMap regCustomRequired ⟨[("", ["required"])], [], []⟩
        (.mapV .nil) "").map (fun w => w.errors)
      = .ok [("", " CUSTOM")] ∧
    ValidateMap regCustomRequired .nil [("", ["required"])]
      = .ok [("", " is required")] ∧
    ¬ (" is required" : String) = " CUSTOM" :=
  ⟨rfl, rfl, rfl, by decide⟩

/-- C4 (corrected, amended form): both lookups prefer the exact-path entry;
with no exact entry and a non-empty path both fall back to the wildcard entry
`parent(path) + ".*"`.  At the empty path with no exact entry,
`getParentRules` (used for composites, hence for the root) returns the empty
spec, but `getFieldRules` (used for leaf children) lacks the empty-path guard
and still falls back to the wildcard key `".*"`. -/
theorem claim_C4 (rules : Rules) (name : String) (spec : List String) :
    (lookupKV rules name = some spec →
      getParentRules rules name = spec ∧ getFieldRules rules name = spec) ∧
    (lookupKV rules name = none → ¬ name = "" →
      getParentRules rules name
          = (lookupKV rules (getParentName name ++ ".*")).getD [] ∧
        getFieldRules rules name
          = (lookupKV rules (getParentName name ++ ".*")).getD []) ∧
    (lookupKV rules "" = none →
      getParentRules rules "" = [] ∧
      getFieldRules rules ""
        = (lookupKV rules (getParentName "" ++ ".*")).getD []) := by
  refine ⟨?_, ?_, ?_⟩
  · intro h
    constructor
    · rw [getParentRules, h]
    · rw [getFieldRules, h]
  · intro h hne
    constructor
    · rw [getParentRules, h]
      simp [hne]
    · rw [getFieldRules, h]
  · intro h
    constructor
    · rw [getParentRules, h]
      simp
    · rw [getFieldRules, h]

theorem claim_C4_witness :
    lookupKV ([("a", ["min:2"]), ("b.*", ["max:3"])] : Rules) "a"
        = some ["min:2"] ∧
    getParentRules [("a", ["min:2"]), ("b.*", ["max:3"])] "a" = ["min:2"] ∧
    getFieldRules [("a", ["min:2"]), ("b.*", ["max:3"])] "a" = ["min:2"] ∧
    lookupKV ([("a", ["min:2"]), ("b.*", ["max:3"])] : Rules) "b.c" = none ∧
    getParentRules [("a", ["min:2"]), ("b.*", ["max:3"])] "b.c" = ["max:3"] :=
  ⟨rfl,
   ((claim_C4 [("a", ["min:2"]), ("b.*", ["max:3"])] "a" ["min:2"]).1 rfl).1,
   ((claim_C4 [("a", ["min:2"]), ("b.*", ["max:3"])] "a" ["min:2"]).1 rfl).2,
   rfl,
   by
     have h := ((claim_C4 [("a", ["min:2"]), ("b.*", ["max:3"])] "b.c"
       []).2.1 rfl (by decide)).1
     simpa using h⟩

/-- C4 counterexample: with the rule table `{".*": ["x"]}` and the empty
path — which has no exact entry — the leaf lookup `getFieldRules` returns the
wildcard spec `["x"]`, not the empty spec the claim requires. -/
theorem claim_C4_counterexample :
    lookupKV ([(".*", ["x"])] : Rules) "" = none ∧
    getFieldRules [(".*", ["x"])] "" = ["x"] ∧
    ¬ (["x"] : List String) = [] :=
  ⟨rfl, rfl, by decide⟩

/-- C5 (confirmed): the annotation merger inserts a tag-derived spec only at
paths with no existing entry: every existing binding survives `addTagRules`
unchanged, and consequently rule resolution at such a path still returns the
explicit spec — an explicit entry always beats a conflicting tag. -/
theorem claim_C5 (rules : Rules) (val : Value) (parName k : String)
    (h : (lookupKV rules k).isSome = true) :
    lookupKV (addTagRules rules val parName) k = lookupKV rules k ∧
    getFieldRules (addTagRules rules val parName) k = getFieldRules rules k := by
  have h1 := addTagRules_preserves rules val parName k h
  refine ⟨h1, ?_⟩
  obtain ⟨spec, hspec⟩ := Option.isSome_iff_exists.mp h
  simp only [getFieldRules, h1, hspec]

theorem claim_C5_witness :
    (lookupKV ([("A", ["max:2"])] : Rules) "A").isSome = true ∧
    lookupKV (addTagRules [("A", ["max:2"])]
        (.structV (.cons "A" "min:5" true (.scalar "x") .nil)) "") "A"
      = lookupKV ([("A", ["max:2"])] : Rules) "A" ∧
    getFieldRules (addTagRules [("A", ["max:2"])]
        (.structV (.cons "A" "min:5" true (.scalar "x") .nil)) "") "A"
      = getFieldRules [("A", ["max:2"])] "A" :=
  ⟨rfl,
   (claim_C5 [("A", ["max:2"])]
     (.structV (.cons "A" "min:5" true (.scalar "x") .nil)) "" "A" rfl).1,
   (claim_C5 [("A", ["max:2"])]
     (.structV (.cons "A" "min:5" true (.scalar "x") .nil)) "" "A" rfl).2⟩

/-- C8 (confirmed): a value dispatched as a map that is not a canonical
`map[string]interface\x7b\x7d`, or dispatched as a slice that is not a
canonical `[]interface\x7b\x7d`, makes the call abort with the
unsupported-type panic; no validation error is recorded. -/
theorem claim_C8 (reg : Registry) (v : validation) (name t : String) :
    validateMap reg v (.badMap t) name
        = .error (.unsupportedType name t) ∧
    validateSlice reg v (.badSlice t) name
        = .error (.unsupportedType name t) ∧
    validateByType reg v name (.badMap t)
        = .error (.unsupportedType name t) ∧
    validateByType reg v name (.badSlice t)
        = .error (.unsupportedType name t) :=
  ⟨rfl, rfl, rfl, rfl⟩

/-- C10 (confirmed): a child's path is registered in the visited set before
its rules are evaluated — whenever `validateByType` returns successfully the
dispatched path is visited — and the completeness pass never touches the
error binding of any visited path, so a present-but-invalid field keeps
exactly its traversal-time error. -/
theorem claim_C10 (reg : Registry) (v : validation) (name : String)
    (val : Value) (v' : validation)
    (h : validateByType reg v name val = .ok v') :
    name ∈ v'.fieldsExist ∧
    (∀ n, n ∈ v'.fieldsExist →
      lookupKV (validateNonExistRequiredFields v').errors n
        = lookupKV v'.errors n) := by
  constructor
  · exact validateByType_registered reg v name val v' h
  · intro n hn
    rw [vNERF_errors_lookup]
    simp [hn]

theorem claim_C10_witness :
    validateByType regFail ⟨[("a", ["fail"])], [], []⟩ "a" (.scalar "s")
      = .ok ⟨[("a", ["fail"])], [("a", "a boom")], ["a"]⟩ ∧
    "a" ∈ (⟨[("a", ["fail"])], [("a", "a boom")], ["a"]⟩ :
      validation).fieldsExist ∧
    (∀ n, n ∈ (⟨[("a", ["fail"])], [("a", "a boom")], ["a"]⟩ :
        validation).fieldsExist →
      lookupKV (validateNonExistRequiredFields
          ⟨[("a", ["fail"])], [("a", "a boom")], ["a"]⟩).errors n
        = lookupKV (⟨[("a", ["fail"])], [("a", "a boom")], ["a"]⟩ :
            validation).errors n) :=
  ⟨rfl,
   (claim_C10 regFail ⟨[("a", ["fail"])], [], []⟩ "a" (.scalar "s")
     ⟨[("a", ["fail"])], [("a", "a boom")], ["a"]⟩ rfl).1,
   (claim_C10 regFail ⟨[("a", ["fail"])], [], []⟩ "a" (.scalar "s")
     ⟨[("a", ["fail"])], [("a", "a boom")], ["a"]⟩ rfl).2⟩

/-- C6 (confirmed): `Validate` skips empty expressions, evaluates the rest in
list order, returns the failure of the first failing expression without
consulting anything after it (the conclusion holds for every suffix `post`,
registered or not), and succeeds exactly when every non-empty expression
resolves and passes. -/
theorem claim_C6 (reg : Registry) (name : String) (val : Value) :
    (∀ rs, Validate reg name val ("" :: rs) = Validate reg name val rs) ∧
    (∀ rs, Validate reg name val rs = .ok none ↔
      ∀ r ∈ rs, ¬ r = "" →
        ∃ f, reg (splitRuleNameAndRuleValue r).1 = some f ∧
          f name val (splitRuleNameAndRuleValue r).2 = none) ∧
    (∀ pre post r msg,
      (∀ s ∈ pre, ¬ s = "" →
        ∃ f, reg (splitRuleNameAndRuleValue s).1 = some f ∧
          f name val (splitRuleNameAndRuleValue s).2 = none) →
      ¬ r = "" →
      (∃ f, reg (splitRuleNameAndRuleValue r).1 = some f ∧
        f name val (splitRuleNameAndRuleValue r).2 = some msg) →
      Validate reg name val (pre ++ r :: post) = .ok (some msg)) := by
  refine ⟨?_, Validate_ok_none_iff reg name val, ?_⟩
  · intro rs
    rw [Validate, if_pos rfl]
  · intro pre post r msg hpre hr hfail
    exact Validate_first_failure reg name val pre post r msg hpre hr hfail

theorem claim_C6_witness :
    ¬ ("fail" : String) = "" ∧
    Validate regFail "x" (.scalar "s") ([""] ++ "fail" :: ["nonexistent"])
      = .ok (some "x boom") :=
  ⟨by decide,
   (claim_C6 regFail "x" (.scalar "s")).2.2 [""] ["nonexistent"] "fail" "x boom"
     (fun s hs hne => absurd (List.mem_singleton.mp hs) hne)
     (by decide)
     ⟨fun n _ _ => some (n ++ " boom"), rfl, rfl⟩⟩

/-- C7 (confirmed): a rule expression whose name is not in the Registry makes
`Validate` abort with the unknown-rule panic the moment it is evaluated, and
such an abort propagates out of the entry point: the call returns the
configuration error and no error map at all. -/
theorem claim_C7 (reg : Registry) (name : String) (val : Value) :
    (∀ pre post r,
      (∀ s ∈ pre, ¬ s = "" →
        ∃ f, reg (splitRuleNameAndRuleValue s).1 = some f ∧
          f name val (splitRuleNameAndRuleValue s).2 = none) →
      ¬ r = "" →
      reg (splitRuleNameAndRuleValue r).1 = none →
      Validate reg name val (pre ++ r :: post)
        = .error (.unknownRule (splitRuleNameAndRuleValue r).1)) ∧
    (∀ (es : MEntries) (rules : Rules) (e : CErr),
      Validate reg "" (.mapV es)
          (getParentRules (addTagRules (copyRules rules) (.mapV es) "") "")
        = .error e →
      ValidateMap reg es rules = .error e) := by
  constructor
  · intro pre post r hpre hr hnone
    exact Validate_unknown_rule reg name val pre post r hpre hr hnone
  · intro es rules e h
    simp only [ValidateMap, createNewValidation, validateMap, h]

theorem claim_C7_witness :
    regNone (splitRuleNameAndRuleValue "bogus").1 = none ∧
    Validate regNone "x" (.scalar "s") ([] ++ "bogus" :: [])
      = .error (.unknownRule (splitRuleNameAndRuleValue "bogus").1) ∧
    Validate regNone "" (.mapV .nil)
        (getParentRules (addTagRules (copyRules [("", ["bogus"])])
          (.mapV .nil) "") "")
      = .error (.unknownRule "bogus") ∧
    ValidateMap regNone .nil [("", ["bogus"])]
      = .error (.unknownRule "bogus") :=
  ⟨rfl,
   (claim_C7 regNone "x" (.scalar "s")).1 [] [] "bogus"
     (fun s hs => absurd hs (List.not_mem_nil s)) (by decide) rfl,
   rfl,
   (claim_C7 regNone "x" (.scalar "s")).2 .nil [("", ["bogus"])]
     (.unknownRule "bogus") rfl⟩

/-- C9 (confirmed): with rule-table objects made explicit, each entry point
computes its result from the caller's table only; the session's table is a
fresh object (its index is never the caller's), the caller's object is
unchanged after the call, and a second run on the resulting heap returns the
identical result. -/
theorem claim_C9 (reg : Registry) (store : RulesStore) (idx : Nat)
    (val : Value) (m : MEntries) (s : SEntries) (h : idx < store.length) :
    ¬ store.length = idx ∧
    ((ValidateMapWithStore reg store idx m).2.getD idx []
        = store.getD idx [] ∧
      (ValidateMapWithStore reg
          (ValidateMapWithStore reg store idx m).2 idx m).1
        = (ValidateMapWithStore reg store idx m).1) ∧
    ((ValidateStructWithStore reg store idx val).2.getD idx []
        = store.getD idx [] ∧
      (ValidateStructWithStore reg
          (ValidateStructWithStore reg store idx val).2 idx val).1
        = (ValidateStructWithStore reg store idx val).1) ∧
    ((ValidateSliceWithStore reg store idx s).2.getD idx []
        = store.getD idx [] ∧
      (ValidateSliceWithStore reg
          (ValidateSliceWithStore reg store idx s).2 idx s).1
        = (ValidateSliceWithStore reg store idx s).1) := by
  refine ⟨by omega, ⟨?_, ?_⟩, ⟨?_, ?_⟩, ⟨?_, ?_⟩⟩
  · simp only [ValidateMapWithStore]
    exact getD_append_left store _ [] idx h
  · simp only [ValidateMapWithStore]
    rw [getD_append_left store _ [] idx h]
  · by_cases hs : IsStruct val = true
    · simp only [ValidateStructWithStore, hs, if_true]
      exact getD_append_left store _ [] idx h
    · simp [ValidateStructWithStore, hs]
  · by_cases hs : IsStruct val = true
    · simp only [ValidateStructWithStore, hs, if_true]
      rw [getD_append_left store _ [] idx h]
    · simp [ValidateStructWithStore, hs]
  · simp only [ValidateSliceWithStore]
    exact getD_append_left store _ [] idx h
  · simp only [ValidateSliceWithStore]
    rw [getD_append_left store _ [] idx h]

theorem claim_C9_witness :
    0 < ([[("a", ["x"])]] : RulesStore).length ∧
    ¬ ([[("a", ["x"])]] : RulesStore).length = 0 ∧
    (ValidateMapWithStore regNone [[("a", ["x"])]] 0 .nil).2.getD 0 []
      = ([[("a", ["x"])]] : RulesStore).getD 0 [] ∧
    (ValidateMapWithStore regNone
        (ValidateMapWithStore regNone [[("a", ["x"])]] 0 .nil).2 0 .nil).1
      = (ValidateMapWithStore regNone [[("a", ["x"])]] 0 .nil).1 :=
  ⟨by decide,
   (claim_C9 regNone [[("a", ["x"])]] 0 (.structV .nil) .nil .nil
     (by decide)).1,
   (claim_C9 regNone [[("a", ["x"])]] 0 (.structV .nil) .nil .nil
     (by decide)).2.1.1,
   (claim_C9 regNone [[("a", ["x"])]] 0 (.structV .nil) .nil .nil
     (by decide)).2.1.2⟩

end Valdn
